import Mathlib

/-!
Verification development for the BAG routing-grid and fill engine
(`bag/layout/routing/fill.py` and `bag/layout/routing/grid.py`).

All code is embedded shallowly: Python integers become `ℤ` (or `ℕ` where the
source only ever sees non-negative values), Python floored division `//` and
`%` become `Int.fdiv` / `Int.fmod` (with `%` on positive moduli written via
`Int.emod`, which agrees with Python there), and every `raise` site becomes an
`Except.error` with a dedicated constructor.  Coordinates are kept in
resolution units (the `unit_mode=True` view of the source), so every
computation is exact integer/rational arithmetic.
-/

deriving instance DecidableEq for Except

namespace BagSpec

/-- Error values corresponding to the `raise` sites of `fill.py`:
`minMaxUsage` is the `n_min`/`n_max` usage `ValueError` of
`fill_symmetric_const_space` / `fill_symmetric_max`; `zeroSpace`,
`blkNonPos` and `oddCyclicSp` are the three `raise` sites of
`_fill_symmetric_info`; `noSolution` is the `"No fill solution found"`
raise of `fill_symmetric_max`; `divByZero` models Python's
`ZeroDivisionError`. -/
inductive FillErr where
  | minMaxUsage
  | zeroSpace
  | blkNonPos
  | oddCyclicSp
  | noSolution
  | divByZero
  deriving DecidableEq, Repr

/-- The tuple returned by `_fill_symmetric_info` (fill.py lines 664-782):
`(fill_area, same_sp, blk0, blk1, k, m, mid_blk_len, mid_sp_len)`. -/
structure FillInfo where
  fillArea : ℤ
  sameSp : Bool
  blk0 : ℤ
  blk1 : ℤ
  k : ℤ
  m : ℤ
  midBlkLen : ℤ
  midSpLen : ℤ
  deriving DecidableEq, Repr

/-- The number of space blocks computed at the top of
`_fill_symmetric_info` (fill.py lines 707-714). -/
def fsNumSpTot (numBlkTot : ℤ) (fillOnEdge cyclic : Bool) : ℤ :=
  if cyclic then numBlkTot
  else if fillOnEdge then numBlkTot - 1 else numBlkTot + 1

/-- The pure computation of `_fill_symmetric_info` once its `raise` guards
have passed (fill.py lines 705-782): middle block/space handling and the
choice of `blk0`, `blk1`, `k`, `m`. -/
def fsCore (totArea numBlkTot sp : ℤ) (incSp fillOnEdge cyclic : Bool) : FillInfo :=
  let adjSpSgn : ℤ := if incSp then 1 else -1
  let fillArea := totArea - fsNumSpTot numBlkTot fillOnEdge cyclic * sp
  let blkLen := fillArea.fdiv numBlkTot
  let numBlk1 := fillArea.fmod numBlkTot
  let numBlkTot2 := if cyclic ∧ fillOnEdge then numBlkTot + 1 else numBlkTot
  let branch : ℤ × ℤ × ℤ × Bool × ℤ :=
    if numBlkTot2 % 2 = 0 then
      if numBlk1 % 2 = 1 then
        (-1, sp + adjSpSgn, numBlk1 - adjSpSgn, false, fillArea - adjSpSgn)
      else (-1, sp, numBlk1, true, fillArea)
    else
      if numBlk1 % 2 = 1 then (blkLen + 1, -1, numBlk1, true, fillArea)
      else (blkLen, -1, numBlk1, true, fillArea)
  let midBlkLen := branch.1
  let midSpLen := branch.2.1
  let numBlk1a := branch.2.2.1
  let sameSp := branch.2.2.2.1
  let fillArea2 := branch.2.2.2.2
  let numLarge := numBlk1a.fdiv 2
  let numSmall := (numBlkTot2 - numBlk1a).fdiv 2
  let m := numLarge + numSmall
  let blks : ℤ × ℤ × ℤ :=
    if cyclic ∧ fillOnEdge then
      if blkLen % 2 = 0 then (blkLen + 1, blkLen, numSmall)
      else (blkLen, blkLen + 1, numLarge)
    else
      if numLarge ≥ numSmall then (blkLen, blkLen + 1, numLarge)
      else (blkLen + 1, blkLen, numSmall)
  ⟨fillArea2, sameSp, blks.1, blks.2.1, blks.2.2, m, midBlkLen, midSpLen⟩

/-- Embedding of `_fill_symmetric_info(tot_area, num_blk_tot, sp, inc_sp,
fill_on_edge, cyclic)` (fill.py lines 664-782): the `raise` guards in
source order (the parity check at line 762 sits after only pure
computations, so hoisting it next to the other guards is
behavior-preserving), then the pure core.  `divmod` by zero is Python's
`ZeroDivisionError`. -/
def fillSymmetricInfo (totArea numBlkTot sp : ℤ) (incSp fillOnEdge cyclic : Bool) :
    Except FillErr FillInfo :=
  if fsNumSpTot numBlkTot fillOnEdge cyclic = 0 ∧ sp ≠ 0 then .error .zeroSpace
  else if numBlkTot = 0 then .error .divByZero
  else if (totArea - fsNumSpTot numBlkTot fillOnEdge cyclic * sp).fdiv numBlkTot ≤ 0 then
    .error .blkNonPos
  else if cyclic ∧ ¬fillOnEdge ∧ sp % 2 = 1 then .error .oddCyclicSp
  else .ok (fsCore totArea numBlkTot sp incSp fillOnEdge cyclic)

/-- Embedding of `_fill_symmetric_helper(tot_area, num_blk_tot, sp, offset,
inc_sp, invert, fill_on_edge, cyclic)` (fill.py lines 785-906): the
cumulative-modding emission loop, the middle block/space handling, and the
mirroring of the first half about the center. -/
def fillSymmetricHelper (totArea numBlkTot sp offset : ℤ)
    (incSp invert fillOnEdge cyclic : Bool) :
    Except FillErr (List (ℤ × ℤ) × Bool) :=
  match fillSymmetricInfo totArea numBlkTot sp incSp fillOnEdge cyclic with
  | .error e => .error e
  | .ok info =>
    let blk0 := info.blk0
    let blk1 := info.blk1
    let marker0 : ℤ :=
      if cyclic then
        if fillOnEdge then offset - blk1.fdiv 2 else offset - sp.fdiv 2
      else offset
    let step := fun (s : List (ℤ × ℤ) × ℤ × ℤ × ℤ) (_ : ℕ) =>
      let ans := s.1
      let marker := s.2.1
      let curSum := s.2.2.1
      let prevSum := s.2.2.2
      let curLen := if curSum < prevSum then blk1 else blk0
      let newIntv :=
        if invert then
          if fillOnEdge then (marker + curLen, marker + sp + curLen)
          else (marker, marker + sp)
        else
          if fillOnEdge then (marker, marker + curLen)
          else (marker + sp, marker + sp + curLen)
      (ans ++ [newIntv], marker + curLen + sp, (curSum + info.k) % info.m, curSum)
    let looped := (List.range info.m.toNat).foldl step ([], marker0, 0, 1)
    let ans1 := looped.1
    let marker1 := looped.2.1
    let mid : List (ℤ × ℤ) × ℕ :=
      if info.midBlkLen ≥ 0 then
        if invert then
          if ¬fillOnEdge then
            let a := ans1 ++ [(marker1, marker1 + sp)]
            (a, a.length)
          else (ans1, ans1.length)
        else
          if fillOnEdge then (ans1 ++ [(marker1, marker1 + info.midBlkLen)], ans1.length)
          else (ans1 ++ [(marker1 + sp, marker1 + sp + info.midBlkLen)], ans1.length)
      else
        if invert then
          if fillOnEdge then
            let a := ans1.dropLast
            (a ++ [(marker1 - sp, marker1 - sp + info.midSpLen)], a.length)
          else (ans1 ++ [(marker1, marker1 + info.midSpLen)], ans1.length)
        else (ans1, ans1.length)
    let shift := totArea + offset * 2
    let mirrored := ((mid.1.take mid.2).reverse).map (fun iv => (shift - iv.2, shift - iv.1))
    .ok (mid.1 ++ mirrored, info.sameSp)

/-- The common pattern `_fill_symmetric_helper(...)[0]`: keep only the
interval list of the helper's result. -/
def fillHelperSol (totArea numBlkTot sp offset : ℤ)
    (incSp invert fillOnEdge cyclic : Bool) : Except FillErr (List (ℤ × ℤ)) :=
  match fillSymmetricHelper totArea numBlkTot sp offset incSp invert fillOnEdge cyclic with
  | .error e => .error e
  | .ok sol => .ok sol.1

/-- Embedding of `num_fill = -(-(area - sp_max) // (n_max + sp_max))`
(fill.py line 540), the ceiling-division block count of
`fill_symmetric_const_space`. -/
def csNumFill (area spMax nMax : ℤ) : ℤ :=
  -((-(area - spMax)).fdiv (nMax + spMax))

/-- Embedding of `fill_symmetric_const_space(area, sp_max, n_min, n_max,
offset)` (fill.py lines 500-576). -/
def fillSymmetricConstSpace (area spMax nMin nMax offset : ℤ) :
    Except FillErr (List (ℤ × ℤ)) :=
  if nMin > nMax then .error .minMaxUsage
  else if nMax + spMax = 0 then .error .divByZero
  else if csNumFill area spMax nMax = 0 then .ok []
  else if (area - (csNumFill area spMax nMax + 1) * spMax).fdiv (csNumFill area spMax nMax)
      ≥ nMin then
    fillHelperSol area (csNumFill area spMax nMax) spMax offset false false false false
  else if csNumFill area spMax nMax + 1 = 0 then .error .divByZero
  else if nMax > nMin ∨
      (area - csNumFill area spMax nMax * nMin).fmod (csNumFill area spMax nMax + 1) = 0 then
    fillHelperSol area (csNumFill area spMax nMax)
      ((area - csNumFill area spMax nMax * nMin).fdiv (csNumFill area spMax nMax + 1))
      offset false false false false
  else
    match fillSymmetricHelper area (csNumFill area spMax nMax + 1) nMax offset
        false true true false with
    | .error e => .error e
    | .ok sol =>
      if sol.2 then .ok sol.1
      else fillHelperSol area (csNumFill area spMax nMax + 2) nMax offset false true true false

/-- One iteration of the block-length scan of `fill_symmetric_max`
(fill.py lines 623-631): the number of blocks and spaces obtainable with a
given trial block length. -/
def fillMaxStep (area spMin : ℤ) (cyclic : Bool) (blk : ℤ) : Except FillErr (ℤ × ℤ) :=
  if blk + spMin = 0 then .error .divByZero
  else if cyclic then
    let nb := area.fdiv (blk + spMin)
    .ok (nb, nb)
  else
    let nb := (area + spMin).fdiv (blk + spMin)
    .ok (nb, nb - 1)

/-- The descending scan `for blk_len_max in range(n_max, n_min - 1, -1)`
of `fill_symmetric_max`: fuel `c` scans the block length `nMin + c` and,
absent an early feasible break, ends at `nMin` returning that last
iteration's values. -/
def fillMaxSearch (area spMin : ℤ) (cyclic : Bool) (nMin : ℤ) :
    ℕ → Except FillErr (ℤ × ℤ × ℤ)
  | 0 =>
    match fillMaxStep area spMin cyclic nMin with
    | .error e => .error e
    | .ok nbs => .ok (nMin, nbs.1, nbs.2)
  | c + 1 =>
    match fillMaxStep area spMin cyclic (nMin + ((c : ℤ) + 1)) with
    | .error e => .error e
    | .ok nbs =>
      if nbs.1 > 0 ∧ nbs.2 > 0 then .ok (nMin + ((c : ℤ) + 1), nbs.1, nbs.2)
      else fillMaxSearch area spMin cyclic nMin c

/-- Embedding of `fill_symmetric_max(area, n_min, n_max, sp_min, offset,
cyclic)` (fill.py lines 579-661). -/
def fillSymmetricMax (area nMin nMax spMin offset : ℤ) (cyclic : Bool) :
    Except FillErr (List (ℤ × ℤ)) :=
  if nMin ≥ nMax then .error .minMaxUsage
  else if nMin ≤ area ∧ area ≤ nMax ∧ ¬cyclic then .ok [(offset, offset + area)]
  else
    match fillMaxSearch area spMin cyclic nMin (nMax - nMin).toNat with
    | .error e => .error e
    | .ok found =>
      if found.2.1 ≤ 0 ∨ found.2.2 ≤ 0 then .ok []
      else if area - found.2.1 * found.1 ≤ (found.2.2 + 1) * spMin then
        fillHelperSol area found.2.2 found.1 offset (decide (found.1 < nMax))
          true cyclic cyclic
      else if (area - (found.2.2 + 1) * spMin).fdiv (found.2.1 + 1) < nMin then
        .error .noSolution
      else fillHelperSol area (found.2.1 + 1) spMin offset true false (!cyclic) cyclic

/-- Supply type tags used by `get_power_fill_tracks`. -/
inductive SupTy where
  | vdd
  | vss
  deriving DecidableEq, Repr

/-- Embedding of `sup_type.get(hidx, None)`: look up the inherited supply
tag of a half track index in the (association-list model of the)
`sup_type` dict. -/
def lookupSup (stype : List (ℤ × SupTy)) (h : ℤ) : Option SupTy :=
  match stype.find? (fun p => p.1 == h) with
  | some p => some p.2
  | none => none

/-- Embedding of the allocation phase of `get_power_fill_tracks`
(fill.py lines 448-497).  Its inputs are the state at line 448: `hlist` is
`sorted(fill_track_set.keys())`, the half-track indices of the fill tracks
that survived occupancy subtraction, and `stype` is the `sup_type` dict of
inherited supply tags.  The output assigns a supply type to every surviving
fill track.  The division `((2*k+1)*remaining_tot + remaining_vdd) //
(2*remaining_vdd)` is guarded by Python's `ZeroDivisionError`. -/
def powerFillAlloc (hlist : List ℤ) (stype : List (ℤ × SupTy)) :
    Except FillErr (List (ℤ × SupTy)) :=
  let totCnt : ℤ := hlist.length
  let vddCnt : ℤ := (hlist.filter (fun h => lookupSup stype h == some .vdd)).length
  let vssCnt : ℤ := (hlist.filter (fun h => lookupSup stype h == some .vss)).length
  let numVdd := totCnt.fdiv 2
  let numVss := totCnt - numVdd
  let remainingTot := totCnt - vddCnt - vssCnt
  let remainingVss := max (numVss - vssCnt) 0
  let remainingVdd := remainingTot - remainingVss
  if 2 * remainingVdd = 0 then .error .divByZero
  else
    let nextVdd0 := (remainingTot + remainingVdd).fdiv (2 * remainingVdd)
    let step := fun (s : List (ℤ × SupTy) × ℤ × ℤ × ℤ) (h : ℤ) =>
      let acc := s.1
      let k := s.2.1
      let nextVdd := s.2.2.1
      let curIdx := s.2.2.2
      match lookupSup stype h with
      | some t => (acc ++ [(h, t)], k, nextVdd, curIdx)
      | none =>
        if curIdx = nextVdd then
          let k2 := k + 1
          let nv2 := ((2 * k2 + 1) * remainingTot + remainingVdd).fdiv (2 * remainingVdd)
          (acc ++ [(h, SupTy.vdd)], k2, nv2, curIdx + 1)
        else (acc ++ [(h, SupTy.vss)], k, nextVdd, curIdx + 1)
    .ok ((hlist.foldl step ([], 0, nextVdd0, 0)).1)

/-- The divisor `2 * remaining_vdd` computed at fill.py line 468, as a
function of the allocation-phase inputs. -/
def powerFillDivisor (hlist : List ℤ) (stype : List (ℤ × SupTy)) : ℤ :=
  let totCnt : ℤ := hlist.length
  let vddCnt : ℤ := (hlist.filter (fun h => lookupSup stype h == some .vdd)).length
  let vssCnt : ℤ := (hlist.filter (fun h => lookupSup stype h == some .vss)).length
  let numVdd := totCnt.fdiv 2
  let numVss := totCnt - numVdd
  let remainingTot := totCnt - vddCnt - vssCnt
  let remainingVss := max (numVss - vssCnt) 0
  2 * (remainingTot - remainingVss)

/-- Number of emitted tracks of a given supply type. -/
def countSup (t : SupTy) (l : List (ℤ × SupTy)) : ℕ :=
  (l.filter (fun p => p.2 == t)).length

/-! ## Routing grid coordinate model (grid.py) -/

/-- Error values of the grid coordinate conversions: `offGrid` is the
`ValueError('coordinate %.4g is not on track.')` of `coord_to_track`;
`divByZero` models Python's `ZeroDivisionError`. -/
inductive GridErr where
  | offGrid
  | divByZero
  deriving DecidableEq, Repr

/-- Embedding of `RoutingGrid.coord_to_track(layer_id, coord,
unit_mode=True)` (grid.py lines 812-841) for a layer with track spacing
`sp`, track width `w` and track-numbering offset `off`, all in resolution
units.  Track numbers are rationals: integer values are physical track
centers, odd half-integers are midpoints between adjacent tracks. -/
def coordToTrack (sp w off coord : ℤ) : Except GridErr ℚ :=
  let pitch := sp + w
  if pitch = 0 then .error .divByZero
  else
    let q := (coord - off).fdiv pitch
    let r := (coord - off).fmod pitch
    if r = 0 then .ok (q : ℚ)
    else if r = pitch.fdiv 2 then .ok ((q : ℚ) + 1 / 2)
    else .error .offGrid

/-- Embedding of `RoutingGrid.track_to_coord(layer_id, track_idx)`
(grid.py lines 939-956), in resolution units (`coord_unit = pitch *
track_idx + offset`; the final multiplication by the layout resolution is
the unit conversion outside the integer model). -/
def trackToCoord (sp w off : ℤ) (t : ℚ) : ℚ :=
  ((sp + w : ℤ) : ℚ) * t + (off : ℚ)

/-- Embedding of `_gcd(a, b)` (grid.py lines 40-44): Euclid's algorithm by
repeated remainder, on the non-negative integers the grid supplies. -/
def pyGcd : ℕ → ℕ → ℕ
  | a, 0 => a
  | a, b + 1 => pyGcd (b + 1) (a % (b + 1))
termination_by _ b => b
decreasing_by exact Nat.mod_lt _ (Nat.succ_pos _)

/-- Embedding of `_lcm(arr, init)` (grid.py lines 47-60): left fold of
`cur_lcm * val // _gcd(cur_lcm, val)` over the list. -/
def pyLcm (arr : List ℕ) (init : ℕ) : ℕ :=
  arr.foldl (fun cur v => cur * v / pyGcd cur v) init

/-- Embedding of `RoutingGrid.update_block_pitch` (grid.py lines 127-140).
The accumulator holds, for each already-processed layer in increasing layer
order, its track direction and computed block pitch; each new layer's block
pitch is the `_lcm` of the block pitches of all lower same-direction layers,
seeded with the layer's own `w + sp`. -/
def bpGo : List (Bool × ℕ) → List (ℕ × Bool) → List ℕ
  | _, [] => []
  | acc, (p, d) :: rest =>
    let bp := pyLcm ((acc.filter (fun t => t.1 == d)).map (fun t => t.2)) p
    bp :: bpGo (acc ++ [(d, bp)]) rest

/-- Block pitches of a routing grid described by its layer records `(w + sp,
direction)` in increasing layer order. -/
def updateBlockPitch (recs : List (ℕ × Bool)) : List ℕ :=
  bpGo [] recs

/-! ## TrackSet and its interval sets (fill.py lines 43-185)

`bag.util.interval.IntervalSet` is code of this repository that is not under
`src/`; it is modelled from the spec below.  `TrackSet` itself is translated
from fill.py. -/

/-- Length of a half-open interval. -/
def intvLen (iv : ℤ × ℤ) : ℤ := iv.2 - iv.1

/-- Whether two intervals overlap or abut (the merge criterion). -/
def ivOverlap (a b : ℤ × ℤ) : Bool := decide (a.1 ≤ b.2 ∧ b.1 ≤ a.2)

/-- Modelled from the spec: `IntervalSet.add(intv, val, merge=True)`
(spec §6 "add-with-merge", §3 "adding an overlapping interval merges
them"); all stored intervals meeting the new one are coalesced into their
union, which carries the newly inserted value (spec §8 scenario 3,
"last write wins" on the merge value). -/
def isetAdd {V : Type} (s : List ((ℤ × ℤ) × V)) (intv : ℤ × ℤ) (val : V) :
    List ((ℤ × ℤ) × V) :=
  let overl := s.filter (fun t => ivOverlap t.1 intv)
  let rest := s.filter (fun t => !ivOverlap t.1 intv)
  let lo := overl.foldl (fun a t => min a t.1.1) intv.1
  let hi := overl.foldl (fun a t => max a t.1.2) intv.2
  ((lo, hi), val) :: rest

/-- Modelled from the spec: the elements of an `IntervalSet` that a
`subtract(intv)` call does not touch (spec §6 "subtract", §4.2). -/
def isetKept {V : Type} (s : List ((ℤ × ℤ) × V)) (intv : ℤ × ℤ) :
    List ((ℤ × ℤ) × V) :=
  s.filter (fun t => !(decide (t.1.1 < intv.2 ∧ intv.1 < t.1.2)))

/-- Modelled from the spec: the newly created fragments of a
`subtract(intv)` call — each overlapped interval keeps its parts outside
the subtracted range; this is the `new_intvs` return value whose short
members the caller deletes (spec §4.2). -/
def isetFrags {V : Type} (s : List ((ℤ × ℤ) × V)) (intv : ℤ × ℤ) :
    List ((ℤ × ℤ) × V) :=
  ((s.filter (fun t => decide (t.1.1 < intv.2 ∧ intv.1 < t.1.2))).map (fun t =>
    (if t.1.1 < intv.1 then [((t.1.1, intv.1), t.2)] else []) ++
    (if intv.2 < t.1.2 then [((intv.2, t.1.2), t.2)] else []))).flatten

/-- Embedding of `TrackSet` (fill.py lines 43-61): a minimum stored length
and a map (association list with unique keys) from half-track index to an
interval set.  The value type `V` stands for the `[width, value]` pair
stored with each interval. -/
structure TrackSet (V : Type) where
  minLen : ℤ
  tracks : List (ℤ × List ((ℤ × ℤ) × V))

/-- Embedding of `self._tracks[hidx]`, defaulting to an empty interval
set. -/
def tsLookup {V : Type} (ts : TrackSet V) (hidx : ℤ) : List ((ℤ × ℤ) × V) :=
  match ts.tracks.find? (fun p => p.1 == hidx) with
  | some p => p.2
  | none => []

/-- Embedding of the dict update `self._tracks[hidx] = s`: update an
existing key in place or append a new one. -/
def tsSetAt {V : Type} (l : List (ℤ × List ((ℤ × ℤ) × V))) (hidx : ℤ)
    (s : List ((ℤ × ℤ) × V)) : List (ℤ × List ((ℤ × ℤ) × V)) :=
  if l.any (fun p => p.1 == hidx) then
    l.map (fun p => if p.1 == hidx then (hidx, s) else p)
  else l ++ [(hidx, s)]

/-- The unchecked insertion shared by `TrackSet.add_track` and
`TrackSet.merge` (fill.py lines 113-121 and 177-185): add with merge, with
no minimum-length test. -/
def tsAddNoCheck {V : Type} (ts : TrackSet V) (hidx : ℤ) (intv : ℤ × ℤ) (val : V) :
    TrackSet V :=
  ⟨ts.minLen, tsSetAt ts.tracks hidx (isetAdd (tsLookup ts hidx) intv val)⟩

/-- Embedding of `TrackSet.add_track(hidx, intv, width, value)` (fill.py
lines 98-121): intervals shorter than `min_length` are silently ignored,
otherwise the interval is added to the per-index set with merge. -/
def tsAddTrack {V : Type} (ts : TrackSet V) (hidx : ℤ) (intv : ℤ × ℤ) (val : V) :
    TrackSet V :=
  if intvLen intv ≥ ts.minLen then tsAddNoCheck ts hidx intv val
  else ts

/-- Embedding of `TrackSet.subtract(hidx, intv)` (fill.py lines 85-96):
subtract the interval from the set at `hidx`, drop any newly created
fragment shorter than `min_length`, and delete the key when the set
becomes empty. -/
def tsSubtract {V : Type} (ts : TrackSet V) (hidx : ℤ) (intv : ℤ × ℤ) :
    TrackSet V :=
  if ts.tracks.any (fun p => p.1 == hidx) then
    if (isetKept (tsLookup ts hidx) intv ++
        (isetFrags (tsLookup ts hidx) intv).filter
          (fun t => decide (intvLen t.1 ≥ ts.minLen))).isEmpty then
      ⟨ts.minLen, ts.tracks.filter (fun p => !(p.1 == hidx))⟩
    else
      ⟨ts.minLen, tsSetAt ts.tracks hidx
        (isetKept (tsLookup ts hidx) intv ++
          (isetFrags (tsLookup ts hidx) intv).filter
            (fun t => decide (intvLen t.1 ≥ ts.minLen)))⟩
  else ts

/-- Embedding of `TrackSet.merge(track_set)` (fill.py lines 174-185): every
interval of the other track set is inserted with merge. -/
def tsMerge {V : Type} (ts other : TrackSet V) : TrackSet V :=
  other.tracks.foldl
    (fun cur p => p.2.foldl (fun cur2 t => tsAddNoCheck cur2 p.1 t.1 t.2) cur) ts

/-- The minimum-length invariant of a `TrackSet`: every stored interval has
length at least `min_length`. -/
abbrev tsInv {V : Type} (ts : TrackSet V) : Prop :=
  ∀ p ∈ ts.tracks, ∀ t ∈ p.2, ts.minLen ≤ intvLen t.1

/-! ## Property predicates used to state the claims -/

/-- Each interval ends no later than the next one starts: the list is
sorted and pairwise disjoint. -/
def chainDisjoint : List (ℤ × ℤ) → Bool
  | [] => true
  | [_] => true
  | a :: b :: rest => decide (a.2 ≤ b.1) && chainDisjoint (b :: rest)

/-- Every gap between consecutive intervals equals `g`. -/
def chainGap (g : ℤ) : List (ℤ × ℤ) → Bool
  | [] => true
  | [_] => true
  | a :: b :: rest => decide (b.1 - a.2 = g) && chainGap g (b :: rest)

/-! ## Claim theorems -/

/-- Claim C1.  The claim asserts that every valid (non-raising) call to the
symmetric packing helper returns a sorted, pairwise disjoint interval list.
The code violates this: the call `_fill_symmetric_helper(19, 4, 1, offset=0,
inc_sp=True, invert=False, fill_on_edge=True, cyclic=False)` — reached from
the public entry point `fill_symmetric_max(19, 4, 5, 1)` — returns
`[(0,4),(5,10),(9,14),(15,19)]`, in which `(5,10)` and `(9,14)` overlap, and
whose gaps are not all equal to the requested spacing `1` even though the
returned `same_sp` flag is `True`.  (The cumulative-modding distribution
emits one long block even when the remainder `num_blk1` is zero, so the
first half overshoots the center.)  This contradicts the helper's own
docstring, which promises a symmetric solution with the given space between
blocks. -/
theorem c1_helper_disjointness_bug :
    fillSymmetricMax 19 4 5 1 0 false = .ok [(0, 4), (5, 10), (9, 14), (15, 19)] ∧
    fillSymmetricHelper 19 4 1 0 true false true false =
      .ok ([(0, 4), (5, 10), (9, 14), (15, 19)], true) ∧
    chainDisjoint [(0, 4), (5, 10), (9, 14), (15, 19)] = false ∧
    chainGap 1 [(0, 4), (5, 10), (9, 14), (15, 19)] = false := by
  refine ⟨by decide, by decide, by decide, by decide⟩

/-- Claim C2.  The claim asserts `|count(VDD) - count(VSS)| ≤ 1` after
allocation.  The code violates it: with two surviving fill tracks of which
the first inherited the tag `VSS` (so a balanced `1`/`1` split is
achievable), the allocator emits both tracks as `VSS` (`0` VDD vs `2` VSS),
because the spreading formula `((2k+1)*R + V) // (2V)` rounds the first VDD
position up to `1` while only remainder position `0` exists.  This
contradicts the code's own quota computation `num_vdd = tot_cnt // 2`. -/
theorem c2_balance_bug :
    powerFillAlloc [1, 3] [(1, SupTy.vss)] = .ok [(1, SupTy.vss), (3, SupTy.vss)] ∧
    countSup SupTy.vdd [(1, SupTy.vss), (3, SupTy.vss)] = 0 ∧
    countSup SupTy.vss [(1, SupTy.vss), (3, SupTy.vss)] = 2 ∧
    ¬ (((countSup SupTy.vss [(1, SupTy.vss), (3, SupTy.vss)] : ℤ) -
        (countSup SupTy.vdd [(1, SupTy.vss), (3, SupTy.vss)] : ℤ)).natAbs ≤ 1) := by
  refine ⟨by decide, by decide, by decide, by decide⟩

/-- Claim C9.  The claim asserts that whenever at least one candidate fill
track survives occupancy subtraction, the division by `2 * remaining_vdd`
has a nonzero divisor.  The code violates it: with exactly one surviving,
untagged fill track, `num_vdd = 1 // 2 = 0`, `remaining_vss = 1` and
`remaining_vdd = 0`, so the divisor is `0` and Python raises
`ZeroDivisionError` before the assignment loop even starts. -/
theorem c9_division_by_zero :
    powerFillDivisor [1] [] = 0 ∧
    powerFillAlloc [1] [] = .error .divByZero := by
  refine ⟨by decide, by decide⟩

/-- Claim C4, counterexample.  The claim asserts that
`fill_symmetric_max(20, 2, 4, 2)` returns exactly 3 blocks, each of length
4.  The code returns 4 blocks `[(0,4),(6,9),(11,14),(16,20)]` of lengths
4, 3, 3, 4 (three max-length blocks would leave a space of 8 > 3·2, so the
algorithm adds a fourth block). -/
theorem c4_counterexample :
    fillSymmetricMax 20 2 4 2 0 false = .ok [(0, 4), (6, 9), (11, 14), (16, 20)] ∧
    ([(0, 4), (6, 9), (11, 14), (16, 20)] : List (ℤ × ℤ)).length ≠ 3 ∧
    ¬ (∀ iv ∈ ([(0, 4), (6, 9), (11, 14), (16, 20)] : List (ℤ × ℤ)),
        iv.2 - iv.1 = 4) := by
  refine ⟨by decide, by decide, by decide⟩

/-- Claim C4, amended.  `fill_symmetric_max(area=20, n_min=2, n_max=4,
sp_min=2)` (offset 0, non-cyclic) returns exactly 4 fill blocks
`[(0,4),(6,9),(11,14),(16,20)]`, of lengths 4, 3, 3, 4 (at most two distinct
lengths differing by one), separated by spaces of length exactly 2, with
blocks abutting the area edges 0 and 20, and the result is symmetric about
x = 10 (i.e. invariant under `x ↦ 20 − x`). -/
theorem c4_amended :
    fillSymmetricMax 20 2 4 2 0 false = .ok [(0, 4), (6, 9), (11, 14), (16, 20)] ∧
    chainGap 2 [(0, 4), (6, 9), (11, 14), (16, 20)] = true ∧
    chainDisjoint [(0, 4), (6, 9), (11, 14), (16, 20)] = true ∧
    (([(0, 4), (6, 9), (11, 14), (16, 20)] : List (ℤ × ℤ)).map
      (fun iv => ((20 : ℤ) - iv.2, (20 : ℤ) - iv.1))).reverse =
      [(0, 4), (6, 9), (11, 14), (16, 20)] ∧
    (∀ iv ∈ ([(0, 4), (6, 9), (11, 14), (16, 20)] : List (ℤ × ℤ)),
      iv.2 - iv.1 = 4 ∨ iv.2 - iv.1 = 3) := by
  refine ⟨by decide, by decide, by decide, by decide, by decide⟩

/-- Claim C8, counterexample.  The claim asserts that a cyclic packing
request with an odd space and fill on the edge never returns an interval
list.  The code's parity check (fill.py line 762) fires only when the space
is on the edge (`not fill_on_edge`): the cyclic fill-on-edge call
`_fill_symmetric_helper(8, 2, 1, offset=0, inc_sp=True, invert=False,
fill_on_edge=True, cyclic=True)` with odd space `1` returns the interval
list `[(-2,2),(3,6),(6,10)]` normally. -/
theorem c8_counterexample :
    fillSymmetricHelper 8 2 1 0 true false true true =
      .ok ([(-2, 2), (3, 6), (6, 10)], true) := by
  decide

/-- Claim C8, amended.  A cyclic packing request with *space on the edge*
(`fill_on_edge = False`) and an odd space length always fails with an
error (it never returns an interval list): either one of the earlier
degenerate-input checks fires, or the dedicated parity check
`'Cannot fill cyclic area with odd space on edge.'` does. -/
theorem c8_amended (totArea numBlkTot sp offset : ℤ) (incSp invert : Bool)
    (hodd : sp % 2 = 1) :
    ∃ e, fillSymmetricHelper totArea numBlkTot sp offset incSp invert false true =
      .error e := by
  have hinfo : ∃ e, fillSymmetricInfo totArea numBlkTot sp incSp false true =
      .error e := by
    unfold fillSymmetricInfo
    split_ifs with h1 h2 h3 h4
    · exact ⟨_, rfl⟩
    · exact ⟨_, rfl⟩
    · exact ⟨_, rfl⟩
    · exact ⟨_, rfl⟩
    · exact absurd ⟨by decide, by decide, hodd⟩ h4
  obtain ⟨e, he⟩ := hinfo
  refine ⟨e, ?_⟩
  unfold fillSymmetricHelper
  rw [he]

/-- Witness for the amended claim C8 at a concrete input. -/
theorem c8_amended_witness :
    ∃ e, fillSymmetricHelper 8 2 1 0 true false false true = .error e :=
  c8_amended 8 2 1 0 true false (by decide)

/-- Claim C3.  For a layer whose pitch `sp + w` is positive and even (as
guaranteed by `add_new_layer`, which stores spacing and width as doubled
integers), whenever `coord_to_track` succeeds on a coordinate `c` — i.e.
`c` lies exactly on a track or half-track boundary — the returned track
index maps back to exactly `c` under `track_to_coord`. -/
theorem c3_round_trip (sp w off c : ℤ) (t : ℚ) (hp : 0 < sp + w)
    (he : 2 ∣ sp + w) (h : coordToTrack sp w off c = .ok t) :
    trackToCoord sp w off t = (c : ℚ) := by
  obtain ⟨u, hu⟩ := he
  have hu0 : 0 < u := by omega
  simp only [coordToTrack] at h
  rw [if_neg (by omega : ¬(sp + w = 0))] at h
  have hid := Int.fmod_add_fdiv (c - off) (sp + w)
  split_ifs at h with h0 h1
  · simp only [Except.ok.injEq] at h
    subst h
    rw [h0] at hid
    unfold trackToCoord
    have h2 : (sp + w) * ((c - off).fdiv (sp + w)) = c - off := by linarith [hid]
    have h3 : ((sp + w : ℤ) : ℚ) * (((c - off).fdiv (sp + w) : ℤ) : ℚ) =
        (c : ℚ) - (off : ℚ) := by exact_mod_cast h2
    linear_combination h3
  · simp only [Except.ok.injEq] at h
    subst h
    have hfd2 : (sp + w).fdiv 2 = u := by
      rw [Int.fdiv_eq_ediv _ (by norm_num : (0 : ℤ) ≤ 2), hu]
      exact Int.mul_ediv_cancel_left u (by norm_num)
    rw [h1, hfd2] at hid
    unfold trackToCoord
    have h3 : ((u : ℤ) : ℚ) + ((sp + w : ℤ) : ℚ) *
        (((c - off).fdiv (sp + w) : ℤ) : ℚ) = (c : ℚ) - (off : ℚ) := by
      exact_mod_cast hid
    have h4 : ((sp + w : ℤ) : ℚ) = 2 * ((u : ℤ) : ℚ) := by exact_mod_cast hu
    rw [h4] at h3
    rw [show ((sp + w : ℤ) : ℚ) = 2 * ((u : ℤ) : ℚ) from h4]
    linear_combination h3

/-- Witness for claim C3 at a concrete input: pitch 4, offset 2, on-grid
coordinate 6 (= track 1). -/
theorem c3_round_trip_witness :
    (0 : ℤ) < 2 + 2 ∧ trackToCoord 2 2 2 1 = ((6 : ℤ) : ℚ) :=
  ⟨by decide, c3_round_trip 2 2 2 6 1 (by decide) ⟨2, by decide⟩ (by decide)⟩

/-- Claim C6.  For a layer with positive even pitch: (1) a coordinate lying
exactly halfway between two adjacent tracks (offset plus a whole number of
pitches plus half a pitch) converts to the odd half-integer track index
`q + 1/2`; (2) every coordinate whose residue is neither `0` nor half the
pitch — e.g. one unit off a boundary — raises the dedicated off-grid
error rather than silently rounding. -/
theorem c6_half_track_and_off_grid (sp w off : ℤ) (hp : 0 < sp + w)
    (he : 2 ∣ sp + w) :
    (∀ q : ℤ, coordToTrack sp w off (off + q * (sp + w) + (sp + w).fdiv 2) =
      .ok ((q : ℚ) + 1 / 2)) ∧
    (∀ c : ℤ, (c - off).fmod (sp + w) ≠ 0 →
      (c - off).fmod (sp + w) ≠ (sp + w).fdiv 2 →
      coordToTrack sp w off c = .error .offGrid) := by
  obtain ⟨u, hu⟩ := he
  have hu0 : 0 < u := by omega
  have hfd2 : (sp + w).fdiv 2 = u := by
    rw [Int.fdiv_eq_ediv _ (by norm_num : (0 : ℤ) ≤ 2), hu]
    exact Int.mul_ediv_cancel_left u (by norm_num)
  constructor
  · intro q
    have harg : off + q * (sp + w) + (sp + w).fdiv 2 - off = u + (sp + w) * q := by
      rw [hfd2]; ring
    have hm : (off + q * (sp + w) + (sp + w).fdiv 2 - off).fmod (sp + w) = u := by
      rw [harg, Int.fmod_eq_emod _ (le_of_lt hp), Int.add_mul_emod_self_left]
      exact Int.emod_eq_of_lt (le_of_lt hu0) (by omega)
    have hd : (off + q * (sp + w) + (sp + w).fdiv 2 - off).fdiv (sp + w) = q := by
      rw [harg, Int.fdiv_eq_ediv _ (le_of_lt hp)]
      rw [show u + (sp + w) * q = u + q * (sp + w) by ring]
      rw [Int.add_mul_ediv_right u q (by omega : sp + w ≠ 0)]
      rw [Int.ediv_eq_zero_of_lt (le_of_lt hu0) (by omega)]
      ring
    simp only [coordToTrack]
    rw [if_neg (by omega : ¬(sp + w = 0)), if_neg (by rw [hm]; omega),
      if_pos (by rw [hm, hfd2]), hd]
  · intro c h0 h1
    simp only [coordToTrack]
    rw [if_neg (by omega : ¬(sp + w = 0)), if_neg h0, if_neg h1]

/-- Witness for claim C6: pitch 4, offset 2; the midpoint coordinate 8
(between tracks 1 and 2) returns track 3/2, and coordinate 5 (one unit off
the boundary 4) raises the off-grid error. -/
theorem pyGcd_eq_gcd (b a : ℕ) : pyGcd a b = Nat.gcd a b := by
  induction b using Nat.strong_induction_on generalizing a with
  | _ b ih =>
    match b with
    | 0 => simp [pyGcd]
    | n + 1 =>
      rw [pyGcd]
      rw [ih (a % (n + 1)) (Nat.mod_lt _ (Nat.succ_pos n)) (n + 1)]
      have h1 : Nat.gcd a (n + 1) = Nat.gcd (a % (n + 1)) (n + 1) := by
        rw [Nat.gcd_comm a (n + 1), Nat.gcd_rec (n + 1) a]
      rw [h1]
      exact Nat.gcd_comm _ _

theorem pyLcm_eq_foldl (arr : List ℕ) (init : ℕ) :
    pyLcm arr init = arr.foldl Nat.lcm init := by
  have hf : (fun cur v => cur * v / pyGcd cur v) = Nat.lcm := by
    funext cur v
    rw [pyGcd_eq_gcd]
    rfl
  rw [pyLcm, hf]

theorem dvd_foldl_lcm_init (l : List ℕ) (a : ℕ) : a ∣ l.foldl Nat.lcm a := by
  induction l generalizing a with
  | nil => exact dvd_refl a
  | cons x xs ih => exact dvd_trans (Nat.dvd_lcm_left a x) (ih (Nat.lcm a x))

theorem dvd_foldl_lcm_mem (l : List ℕ) (a x : ℕ) (hx : x ∈ l) :
    x ∣ l.foldl Nat.lcm a := by
  induction l generalizing a with
  | nil => cases hx
  | cons y ys ih =>
    rcases List.mem_cons.mp hx with rfl | hx2
    · exact dvd_trans (Nat.dvd_lcm_right a x) (dvd_foldl_lcm_init ys (Nat.lcm a x))
    · exact ih (Nat.lcm a y) hx2

theorem bpGo_self_dvd (l : List (ℕ × Bool)) :
    ∀ (acc : List (Bool × ℕ)) (j : ℕ) (hj : j < l.length),
      (l.get ⟨j, hj⟩).1 ∣ (bpGo acc l).getD j 0 := by
  induction l with
  | nil => intro acc j hj; simp at hj
  | cons x rest ih =>
    intro acc j hj
    obtain ⟨p, d⟩ := x
    cases j with
    | zero =>
      simp only [bpGo, List.getD_cons_zero, List.get]
      rw [pyLcm_eq_foldl]
      exact dvd_foldl_lcm_init _ p
    | succ n =>
      simp only [bpGo, List.getD_cons_succ, List.get]
      exact ih _ n (by simpa using hj)

theorem bpGo_acc_dvd (l : List (ℕ × Bool)) :
    ∀ (acc : List (Bool × ℕ)) (d : Bool) (b : ℕ), (d, b) ∈ acc →
      ∀ (j : ℕ) (hj : j < l.length), (l.get ⟨j, hj⟩).2 = d →
      b ∣ (bpGo acc l).getD j 0 := by
  induction l with
  | nil => intro acc d b hmem j hj; simp at hj
  | cons x rest ih =>
    intro acc d b hmem j hj hd
    obtain ⟨p, dp⟩ := x
    cases j with
    | zero =>
      simp only [List.get] at hd
      simp only [bpGo, List.getD_cons_zero]
      rw [pyLcm_eq_foldl]
      apply dvd_foldl_lcm_mem
      apply List.mem_map.mpr
      refine ⟨(d, b), ?_, rfl⟩
      apply List.mem_filter.mpr
      refine ⟨hmem, ?_⟩
      simp [hd]
    | succ n =>
      simp only [bpGo, List.getD_cons_succ]
      exact ih _ d b (List.mem_append_left _ hmem) n (by simpa using hj)
        (by simpa using hd)

theorem bpGo_chain_dvd (l : List (ℕ × Bool)) :
    ∀ (acc : List (Bool × ℕ)) (i j : ℕ) (hi : i < l.length) (hj : j < l.length),
      i < j → (l.get ⟨i, hi⟩).2 = (l.get ⟨j, hj⟩).2 →
      (bpGo acc l).getD i 0 ∣ (bpGo acc l).getD j 0 := by
  induction l with
  | nil => intro acc i j hi; simp at hi
  | cons x rest ih =>
    intro acc i j hi hj hij hdir
    obtain ⟨p, dp⟩ := x
    cases i with
    | zero =>
      cases j with
      | zero => omega
      | succ n =>
        simp only [List.get] at hdir
        simp only [bpGo, List.getD_cons_zero, List.getD_cons_succ]
        exact bpGo_acc_dvd rest _ dp _ (by simp) n (by simpa using hj)
          (by simpa using hdir.symm)
    | succ m =>
      cases j with
      | zero => omega
      | succ n =>
        simp only [bpGo, List.getD_cons_succ]
        exact ih _ m n (by simpa using hi) (by simpa using hj) (by omega)
          (by simpa using hdir)

/-- Claim C5.  For a routing grid built by `update_block_pitch` over layer
records `(w + sp, direction)` in increasing layer order, the block pitch of
every layer is an exact integer multiple (remainder zero, i.e. a
divisibility) of `w + sp` of every lower-or-equal layer with the same track
direction. -/
theorem c5_block_pitch_divisibility (recs : List (ℕ × Bool)) (i j : ℕ)
    (hi : i < recs.length) (hj : j < recs.length) (hij : i ≤ j)
    (hdir : (recs.get ⟨i, hi⟩).2 = (recs.get ⟨j, hj⟩).2) :
    (recs.get ⟨i, hi⟩).1 ∣ (updateBlockPitch recs).getD j 0 := by
  unfold updateBlockPitch
  rcases eq_or_lt_of_le hij with rfl | hlt
  · exact bpGo_self_dvd recs [] i hi
  · exact dvd_trans (bpGo_self_dvd recs [] i hi)
      (bpGo_chain_dvd recs [] i j hi hj hlt hdir)

/-- Witness for claim C5: layers with pitches 4, 6, 6 and directions
horizontal, vertical, horizontal; the third layer's block pitch is
`lcm(6, 4) = 12`, divisible by the first layer's pitch 4. -/
theorem c5_witness :
    (4 : ℕ) ∣ (updateBlockPitch [(4, true), (6, false), (6, true)]).getD 2 0 :=
  c5_block_pitch_divisibility [(4, true), (6, false), (6, true)] 0 2
    (by decide) (by decide) (by decide) (by decide)

theorem c6_witness :
    coordToTrack 2 2 2 (2 + 1 * (2 + 2) + ((2 : ℤ) + 2).fdiv 2) = .ok ((1 : ℚ) + 1 / 2) ∧
    coordToTrack 2 2 2 5 = .error .offGrid := by
  have h := c6_half_track_and_off_grid 2 2 2 (by decide) ⟨2, by decide⟩
  exact ⟨h.1 1, h.2 5 (by decide) (by decide)⟩

theorem fillInfo_ne_usage (totArea numBlkTot sp : ℤ) (incSp fillOnEdge cyclic : Bool) :
    fillSymmetricInfo totArea numBlkTot sp incSp fillOnEdge cyclic ≠
      .error .minMaxUsage := by
  unfold fillSymmetricInfo
  split_ifs <;> simp

theorem fillHelper_ne_usage (totArea numBlkTot sp offset : ℤ)
    (incSp invert fillOnEdge cyclic : Bool) :
    fillSymmetricHelper totArea numBlkTot sp offset incSp invert fillOnEdge cyclic ≠
      .error .minMaxUsage := by
  unfold fillSymmetricHelper
  cases hh : fillSymmetricInfo totArea numBlkTot sp incSp fillOnEdge cyclic with
  | error e =>
    have h2 := fillInfo_ne_usage totArea numBlkTot sp incSp fillOnEdge cyclic
    rw [hh] at h2
    simpa using h2
  | ok info => simp

theorem fillHelperSol_ne_usage (totArea numBlkTot sp offset : ℤ)
    (incSp invert fillOnEdge cyclic : Bool) :
    fillHelperSol totArea numBlkTot sp offset incSp invert fillOnEdge cyclic ≠
      .error .minMaxUsage := by
  unfold fillHelperSol
  cases hh : fillSymmetricHelper totArea numBlkTot sp offset incSp invert fillOnEdge cyclic with
  | error e =>
    have h2 := fillHelper_ne_usage totArea numBlkTot sp offset incSp invert fillOnEdge cyclic
    rw [hh] at h2
    simpa using h2
  | ok sol => simp

theorem fillMaxStep_ne_usage (area spMin : ℤ) (cyclic : Bool) (blk : ℤ) :
    fillMaxStep area spMin cyclic blk ≠ .error .minMaxUsage := by
  unfold fillMaxStep
  split_ifs <;> simp

theorem fillMaxSearch_ne_usage (fuel : ℕ) (area spMin : ℤ) (cyclic : Bool) (nMin : ℤ) :
    fillMaxSearch area spMin cyclic nMin fuel ≠ .error .minMaxUsage := by
  induction fuel with
  | zero =>
    unfold fillMaxSearch
    cases hh : fillMaxStep area spMin cyclic nMin with
    | error e =>
      have h2 := fillMaxStep_ne_usage area spMin cyclic nMin
      rw [hh] at h2
      simpa using h2
    | ok nbs => simp
  | succ c ih =>
    unfold fillMaxSearch
    cases hh : fillMaxStep area spMin cyclic (nMin + ((c : ℤ) + 1)) with
    | error e =>
      have h2 := fillMaxStep_ne_usage area spMin cyclic (nMin + ((c : ℤ) + 1))
      rw [hh] at h2
      simpa using h2
    | ok nbs =>
      dsimp only
      split_ifs
      · simp
      · exact ih

theorem constSpace_ne_usage (area spMax nMin nMax offset : ℤ) (hle : nMin ≤ nMax) :
    fillSymmetricConstSpace area spMax nMin nMax offset ≠ .error .minMaxUsage := by
  unfold fillSymmetricConstSpace
  rw [if_neg (by omega : ¬nMin > nMax)]
  split_ifs with h1 h2 h3 h4 h5
  · simp
  · simp
  · exact fillHelperSol_ne_usage _ _ _ _ _ _ _ _
  · simp
  · exact fillHelperSol_ne_usage _ _ _ _ _ _ _ _
  · cases hh : fillSymmetricHelper area (csNumFill area spMax nMax + 1) nMax offset
        false true true false with
    | error e =>
      have h6 := fillHelper_ne_usage area (csNumFill area spMax nMax + 1) nMax offset
        false true true false
      rw [hh] at h6
      simpa using h6
    | ok sol =>
      dsimp only
      split_ifs
      · simp
      · exact fillHelperSol_ne_usage _ _ _ _ _ _ _ _

theorem fillMax_ne_usage (area nMin nMax spMin offset : ℤ) (cyclic : Bool)
    (hlt : nMin < nMax) :
    fillSymmetricMax area nMin nMax spMin offset cyclic ≠ .error .minMaxUsage := by
  unfold fillSymmetricMax
  rw [if_neg (by omega : ¬nMin ≥ nMax)]
  split_ifs with h1
  · simp
  · cases hh : fillMaxSearch area spMin cyclic nMin (nMax - nMin).toNat with
    | error e =>
      have h2 := fillMaxSearch_ne_usage ((nMax - nMin).toNat) area spMin cyclic nMin
      rw [hh] at h2
      simpa using h2
    | ok found =>
      dsimp only
      split_ifs
      · simp
      · exact fillHelperSol_ne_usage _ _ _ _ _ _ _ _
      · simp
      · exact fillHelperSol_ne_usage _ _ _ _ _ _ _ _

theorem fillMaxSearch_too_short (c : ℕ) (area spMin nMin : ℤ) (ha : 0 ≤ area)
    (hs : 0 ≤ spMin) (hn : area < nMin) :
    fillMaxSearch area spMin false nMin c = .ok (nMin, 0, -1) := by
  induction c with
  | zero =>
    unfold fillMaxSearch fillMaxStep
    rw [if_neg (by omega : ¬(nMin + spMin = 0))]
    have hnb : (area + spMin).fdiv (nMin + spMin) = 0 := by
      rw [Int.fdiv_eq_ediv _ (by omega)]
      exact Int.ediv_eq_zero_of_lt (by omega) (by omega)
    simp [hnb]
  | succ c ih =>
    have hstep : fillMaxStep area spMin false (nMin + ((c : ℤ) + 1)) = .ok (0, -1) := by
      unfold fillMaxStep
      have hc : (0 : ℤ) ≤ (c : ℤ) := Int.natCast_nonneg c
      rw [if_neg (by omega : ¬(nMin + ((c : ℤ) + 1) + spMin = 0))]
      have hnb : (area + spMin).fdiv (nMin + ((c : ℤ) + 1) + spMin) = 0 := by
        rw [Int.fdiv_eq_ediv _ (by omega)]
        exact Int.ediv_eq_zero_of_lt (by omega) (by omega)
      simp [hnb]
    unfold fillMaxSearch
    rw [hstep]
    simpa using ih

/-- Claim C7, amended.  `fill_symmetric_const_space` raises the usage
`ValueError` exactly when `n_min > n_max`, while `fill_symmetric_max`
raises it exactly when `n_min ≥ n_max` (equality also raises, marked
`TODO: support n_min == n_max?` in the source); when the respective guard
passes and zero fill blocks are feasible in the span (`area ≤ sp_max` for
the constant-space variant, `area < n_min` for the non-cyclic maximal
variant), each returns the empty list rather than raising. -/
theorem c7_usage_and_empty :
    (∀ area spMax nMin nMax offset : ℤ,
      fillSymmetricConstSpace area spMax nMin nMax offset = .error .minMaxUsage ↔
        nMin > nMax) ∧
    (∀ (area nMin nMax spMin offset : ℤ) (cyclic : Bool),
      fillSymmetricMax area nMin nMax spMin offset cyclic = .error .minMaxUsage ↔
        nMin ≥ nMax) ∧
    (∀ area spMax nMin nMax offset : ℤ, nMin ≤ nMax → 0 ≤ area → area ≤ spMax →
      0 < nMax → fillSymmetricConstSpace area spMax nMin nMax offset = .ok []) ∧
    (∀ area nMin nMax spMin offset : ℤ, nMin < nMax → 0 ≤ spMin → 0 ≤ area →
      area < nMin → fillSymmetricMax area nMin nMax spMin offset false = .ok []) := by
  refine ⟨?_, ?_, ?_, ?_⟩
  · intro area spMax nMin nMax offset
    constructor
    · intro heq
      by_contra hng
      exact constSpace_ne_usage area spMax nMin nMax offset (by omega) heq
    · intro hgt
      unfold fillSymmetricConstSpace
      rw [if_pos hgt]
  · intro area nMin nMax spMin offset cyclic
    constructor
    · intro heq
      by_contra hng
      exact fillMax_ne_usage area nMin nMax spMin offset cyclic (by omega) heq
    · intro hge
      unfold fillSymmetricMax
      rw [if_pos hge]
  · intro area spMax nMin nMax offset hle ha has hn
    unfold fillSymmetricConstSpace
    rw [if_neg (by omega : ¬nMin > nMax)]
    rw [if_neg (by omega : ¬(nMax + spMax = 0))]
    have hnf : csNumFill area spMax nMax = 0 := by
      unfold csNumFill
      have h1 : (-(area - spMax)).fdiv (nMax + spMax) = 0 := by
        rw [Int.fdiv_eq_ediv _ (by omega)]
        exact Int.ediv_eq_zero_of_lt (by omega) (by omega)
      rw [h1]
      ring
    rw [if_pos hnf]
  · intro area nMin nMax spMin offset hlt hs ha han
    unfold fillSymmetricMax
    rw [if_neg (by omega : ¬nMin ≥ nMax)]
    rw [if_neg (by rintro ⟨hc1, hc2, hc3⟩; omega :
      ¬(nMin ≤ area ∧ area ≤ nMax ∧ ¬(false : Bool)))]
    rw [fillMaxSearch_too_short ((nMax - nMin).toNat) area spMin nMin ha hs han]
    simp

/-- Claim C7, counterexample.  The claim says the packing entry points
raise the usage error exactly when `n_min > n_max`; but `fill_symmetric_max`
with `n_min = n_max = 3` — where `n_min > n_max` is false — still raises
the usage `ValueError` (its guard is `n_min >= n_max`, fill.py line 613). -/
theorem c7_counterexample :
    fillSymmetricMax 10 3 3 1 0 false = .error .minMaxUsage ∧ ¬((3 : ℤ) > 3) := by
  exact ⟨by decide, by decide⟩

/-- Witness for claim C7 at concrete inputs: a `n_min > n_max` usage error
for the constant-space variant, a `n_min = n_max` usage error for the
maximal variant, and empty-list results for spans too short to fill. -/
theorem c7_witness :
    fillSymmetricConstSpace 5 1 3 1 0 = .error .minMaxUsage ∧
    fillSymmetricMax 7 4 4 1 0 false = .error .minMaxUsage ∧
    fillSymmetricConstSpace 2 5 1 3 0 = .ok [] ∧
    fillSymmetricMax 1 2 5 1 0 false = .ok [] := by
  have h := c7_usage_and_empty
  exact ⟨(h.1 5 1 3 1 0).mpr (by decide), (h.2.1 7 4 4 1 0 false).mpr (by decide),
    h.2.2.1 2 5 1 3 0 (by decide) (by decide) (by decide) (by decide),
    h.2.2.2 1 2 5 1 0 (by decide) (by decide) (by decide) (by decide)⟩

theorem foldl_min_le {α : Type} (f : α → ℤ) (l : List α) (a : ℤ) :
    l.foldl (fun m t => min m (f t)) a ≤ a := by
  induction l generalizing a with
  | nil => exact le_refl a
  | cons x xs ih => exact le_trans (ih (min a (f x))) (min_le_left a (f x))

theorem foldl_max_ge {α : Type} (f : α → ℤ) (l : List α) (a : ℤ) :
    a ≤ l.foldl (fun m t => max m (f t)) a := by
  induction l generalizing a with
  | nil => exact le_refl a
  | cons x xs ih => exact le_trans (le_max_left a (f x)) (ih (max a (f x)))

theorem mem_isetAdd {V : Type} (s : List ((ℤ × ℤ) × V)) (intv : ℤ × ℤ) (val : V)
    (t : (ℤ × ℤ) × V) (ht : t ∈ isetAdd s intv val) :
    t ∈ s ∨ intvLen intv ≤ intvLen t.1 := by
  unfold isetAdd at ht
  rcases List.mem_cons.mp ht with rfl | hrest
  · right
    have hlo := foldl_min_le (fun t : (ℤ × ℤ) × V => t.1.1)
      (s.filter fun t => ivOverlap t.1 intv) intv.1
    have hhi := foldl_max_ge (fun t : (ℤ × ℤ) × V => t.1.2)
      (s.filter fun t => ivOverlap t.1 intv) intv.2
    unfold intvLen
    dsimp only
    omega
  · exact Or.inl (List.mem_filter.mp hrest).1

theorem mem_tsSetAt {V : Type} (l : List (ℤ × List ((ℤ × ℤ) × V))) (hidx : ℤ)
    (s : List ((ℤ × ℤ) × V)) (q : ℤ × List ((ℤ × ℤ) × V)) (hq : q ∈ tsSetAt l hidx s) :
    q ∈ l ∨ q = (hidx, s) := by
  unfold tsSetAt at hq
  split_ifs at hq with hany
  · rcases List.mem_map.mp hq with ⟨p, hp, hpq⟩
    by_cases hph : (p.1 == hidx) = true
    · right
      rw [← hpq]
      simp [hph]
    · left
      rw [← hpq]
      simpa [hph] using hp
  · rcases List.mem_append.mp hq with h | h
    · exact Or.inl h
    · exact Or.inr (by simpa using h)

theorem tsLookup_inv {V : Type} (ts : TrackSet V) (hinv : tsInv ts) (hidx : ℤ)
    (t : (ℤ × ℤ) × V) (ht : t ∈ tsLookup ts hidx) : ts.minLen ≤ intvLen t.1 := by
  unfold tsLookup at ht
  cases hf : ts.tracks.find? (fun p => p.1 == hidx) with
  | none =>
    rw [hf] at ht
    cases ht
  | some p =>
    rw [hf] at ht
    exact hinv p (List.mem_of_find?_eq_some hf) t ht

theorem tsInv_addNoCheck {V : Type} (ts : TrackSet V) (hidx : ℤ) (intv : ℤ × ℤ)
    (val : V) (hinv : tsInv ts) (hlen : ts.minLen ≤ intvLen intv) :
    tsInv (tsAddNoCheck ts hidx intv val) := by
  intro p hp t ht
  rcases mem_tsSetAt ts.tracks hidx (isetAdd (tsLookup ts hidx) intv val) p hp with
    hpold | rfl
  · exact hinv p hpold t ht
  · rcases mem_isetAdd (tsLookup ts hidx) intv val t ht with htold | hlen2
    · exact tsLookup_inv ts hinv hidx t htold
    · exact le_trans hlen hlen2

theorem tsInv_merge_inner {V : Type} (l : List ((ℤ × ℤ) × V)) :
    ∀ (cur : TrackSet V) (hidx : ℤ), tsInv cur →
      (∀ t ∈ l, cur.minLen ≤ intvLen t.1) →
      tsInv (l.foldl (fun c t => tsAddNoCheck c hidx t.1 t.2) cur) ∧
      (l.foldl (fun c t => tsAddNoCheck c hidx t.1 t.2) cur).minLen = cur.minLen := by
  induction l with
  | nil => exact fun cur hidx hinv _ => ⟨hinv, rfl⟩
  | cons x xs ih =>
    intro cur hidx hinv hl
    have h1 : tsInv (tsAddNoCheck cur hidx x.1 x.2) :=
      tsInv_addNoCheck cur hidx x.1 x.2 hinv (hl x (List.mem_cons_self x xs))
    have h2 := ih (tsAddNoCheck cur hidx x.1 x.2) hidx h1
      (fun t ht => hl t (List.mem_cons_of_mem x ht))
    exact ⟨h2.1, h2.2⟩

theorem tsInv_merge_outer {V : Type} (L : List (ℤ × List ((ℤ × ℤ) × V))) :
    ∀ cur : TrackSet V, tsInv cur →
      (∀ p ∈ L, ∀ t ∈ p.2, cur.minLen ≤ intvLen t.1) →
      tsInv (L.foldl
        (fun c p => p.2.foldl (fun c2 t => tsAddNoCheck c2 p.1 t.1 t.2) c) cur) ∧
      (L.foldl
        (fun c p => p.2.foldl (fun c2 t => tsAddNoCheck c2 p.1 t.1 t.2) c) cur).minLen =
        cur.minLen := by
  induction L with
  | nil => exact fun cur hinv _ => ⟨hinv, rfl⟩
  | cons x xs ih =>
    intro cur hinv hl
    have h1 := tsInv_merge_inner x.2 cur x.1 hinv (hl x (List.mem_cons_self x xs))
    have h2 := ih (x.2.foldl (fun c2 t => tsAddNoCheck c2 x.1 t.1 t.2) cur) h1.1
      (fun p hp t ht => by
        rw [h1.2]
        exact hl p (List.mem_cons_of_mem x hp) t ht)
    refine ⟨by simpa only [List.foldl_cons] using h2.1, ?_⟩
    rw [List.foldl_cons, h2.2, h1.2]

/-- Claim C10.  The minimum-length invariant of `TrackSet` — every stored
interval has length at least the configured `min_length` — is preserved by
every operation: `add_track` silently ignores (state unchanged, no error)
an interval shorter than `min_length` and preserves the invariant
otherwise (a merged interval only grows); `subtract` preserves it because
every newly created fragment shorter than `min_length` is deleted; and
`merge` of two track sets with the same `min_length` preserves it as
well. -/
theorem c10_trackset_invariant {V : Type} :
    (∀ (ts : TrackSet V) (hidx : ℤ) (intv : ℤ × ℤ) (val : V),
      intvLen intv < ts.minLen → tsAddTrack ts hidx intv val = ts) ∧
    (∀ (ts : TrackSet V) (hidx : ℤ) (intv : ℤ × ℤ) (val : V),
      tsInv ts → tsInv (tsAddTrack ts hidx intv val)) ∧
    (∀ (ts : TrackSet V) (hidx : ℤ) (intv : ℤ × ℤ),
      tsInv ts → tsInv (tsSubtract ts hidx intv)) ∧
    (∀ ts other : TrackSet V, tsInv ts → tsInv other →
      ts.minLen = other.minLen → tsInv (tsMerge ts other)) := by
  refine ⟨?_, ?_, ?_, ?_⟩
  · intro ts hidx intv val hshort
    unfold tsAddTrack
    rw [if_neg (by omega : ¬intvLen intv ≥ ts.minLen)]
  · intro ts hidx intv val hinv
    unfold tsAddTrack
    split_ifs with hlen
    · exact tsInv_addNoCheck ts hidx intv val hinv hlen
    · exact hinv
  · intro ts hidx intv hinv
    unfold tsSubtract
    split_ifs with hany hemp
    · intro p hp t ht
      exact hinv p (List.mem_filter.mp hp).1 t ht
    · intro p hp t ht
      rcases mem_tsSetAt ts.tracks hidx _ p hp with hpold | rfl
      · exact hinv p hpold t ht
      · rcases List.mem_append.mp ht with hk | hf
        · exact tsLookup_inv ts hinv hidx t (List.mem_filter.mp hk).1
        · exact of_decide_eq_true (List.mem_filter.mp hf).2
    · exact hinv
  · intro ts other hinv hinvO hmin
    unfold tsMerge
    exact (tsInv_merge_outer other.tracks ts hinv
      (fun p hp t ht => by rw [hmin]; exact hinvO p hp t ht)).1

/-- Witness for claim C10 at concrete inputs over `V = ℤ`: a too-short add
is a no-op; a legal add, a subtraction that fragments an interval, and a
merge all preserve the minimum-length invariant. -/
theorem c10_witness :
    tsAddTrack (⟨2, [(1, [((0, 5), 7)])]⟩ : TrackSet ℤ) 1 (0, 1) 9 =
      (⟨2, [(1, [((0, 5), 7)])]⟩ : TrackSet ℤ) ∧
    tsInv (tsAddTrack (⟨2, [(1, [((0, 5), 7)])]⟩ : TrackSet ℤ) 1 (0, 3) 9) ∧
    tsInv (tsSubtract (⟨2, [(1, [((0, 5), 7)])]⟩ : TrackSet ℤ) 1 (1, 2)) ∧
    tsInv (tsMerge (⟨2, [(1, [((0, 5), 7)])]⟩ : TrackSet ℤ)
      (⟨2, [(3, [((0, 4), 1)])]⟩ : TrackSet ℤ)) := by
  have h := @c10_trackset_invariant ℤ
  exact ⟨h.1 _ _ _ _ (by decide), h.2.1 _ _ _ _ (by decide),
    h.2.2.1 _ _ _ (by decide), h.2.2.2 _ _ (by decide) (by decide) rfl⟩

end BagSpec
